import Mathlib

/-!
Verification development for the chunk-distribution and redundancy-placement
engine of the storage subnet repository (`storage/validator/utils.py`).

Modelling conventions:
* Python byte strings are `List Nat`; node identifiers (uids) are `Nat`.
* Python exceptions are an explicit error type threaded through `Except`;
  a generator that raises while being consumed is modelled as the whole
  `Except` computation failing with that error.
* CPython float division such as `data_size / max_chunks` followed by
  `math.ceil` or `int(...)` is modelled by exact rational arithmetic on
  unreduced numerator/denominator pairs (`ExactRat`); float rounding is
  abstracted to exact arithmetic.
* The process-global Mersenne Twister of the `random` module is modelled as
  an explicitly threaded `Nat` state with a concrete LCG stand-in for the
  generator; `random.seed(n)` replaces the state by a value derived from `n`
  alone.  `random.sample` is selection sampling without replacement (the
  chosen element is removed from the candidate pool) and `random.shuffle`
  is the Fisher-Yates loop of CPython.
* Division by zero (`//`, `%`, `math.ceil(x / 0)`) and `range(a, b, 0)`
  raise in Python; the embeddings return `Except.error` at exactly the
  program points where CPython would raise.  `R = 0` raises
  `ZeroDivisionError` in every code path of the source, so all claims and
  theorems assume `1 ≤ R`; Lean's `n / 0 = 0` convention is never relied
  upon in a theorem.
-/

/-- Errors raised by the Python source, by CPython exception and message:
`zeroDivisionError` for integer or float division by zero,
`rangeStepZero` for `range(a, b, 0)` (a `ValueError`),
`invalidRedundancy` for the `ValueError` with message
"Redundancy factor cannot be greater than the number of available UIDs.",
`insufficientCombinations` for the `ValueError` with message
"Not enough unique UID combinations ...", and
`indexError` for list indexing out of range. -/
inductive PyError where
  | zeroDivisionError
  | rangeStepZero
  | invalidRedundancy
  | insufficientCombinations
  | indexError
deriving DecidableEq

/-- `MIN_CHUNK_SIZE = 32 * 1024 * 1024` from the source (32 MiB). -/
def MIN_CHUNK_SIZE : Nat := 32 * 1024 * 1024

/-- `MAX_CHUNK_SIZE = 256 * 1024 * 1024` from the source (256 MiB). -/
def MAX_CHUNK_SIZE : Nat := 256 * 1024 * 1024

/-- An exact nonnegative rational as an unreduced fraction.  This models the
value of a CPython float expression such as `data_size / max_chunks` exactly;
all uses keep `den` positive. -/
structure ExactRat where
  num : Nat
  den : Nat
deriving DecidableEq

/-- Exact comparison of fractions by cross multiplication, modelling
float `<=`. -/
def ExactRat.le (a b : ExactRat) : Prop := a.num * b.den ≤ b.num * a.den

/-- Exact comparison of fractions by cross multiplication, modelling
float `<`. -/
def ExactRat.lt (a b : ExactRat) : Prop := a.num * b.den < b.num * a.den

instance (a b : ExactRat) : Decidable (a.le b) := Nat.decLe _ _

instance (a b : ExactRat) : Decidable (a.lt b) := Nat.decLt _ _

/-- Python `min(a, b)` on two numbers: `a` unless `b` is strictly smaller. -/
def ExactRat.emin (a b : ExactRat) : ExactRat := if a.le b then a else b

/-- Python `max(a, b)` on two numbers: `a` unless `b` is strictly larger. -/
def ExactRat.emax (a b : ExactRat) : ExactRat := if b.le a then a else b

/-- Fuel-indexed strided slicing `[l[i : i + k] for i in range(0, len(l), k)]`.
The fuel is the length of the remaining list, which suffices for `1 ≤ k`. -/
def sliceStridedAux : Nat → List α → Nat → List (List α)
  | 0, _, _ => []
  | _ + 1, [], _ => []
  | fuel + 1, l, k => l.take k :: sliceStridedAux fuel (l.drop k) k

/-- Strided slicing of a list into pieces of `k` elements (final piece may be
shorter).  For `k = 0` and a nonempty list CPython raises (`range` step 0);
callers that can reach `k = 0` wrap this in `Option`. -/
def sliceStrided (l : List α) (k : Nat) : List (List α) :=
  sliceStridedAux l.length l k

/-- `chunk_data_generator(data, chunk_size)` (utils.py:44): yields the slices
`data[i : i + chunk_size]` for `i in range(0, len(data), chunk_size)`,
collected into a list.  `chunk_size = 0` makes `range` raise
`ValueError: range() arg 3 must not be zero` as soon as the generator is
consumed, modelled as `none`. -/
def chunk_data_generator (data : List α) (chunk_size : Nat) :
    Option (List (List α)) :=
  if chunk_size = 0 then none else some (sliceStrided data chunk_size)

/-- `partition_uids(available_uids, R)` (utils.py:572): the consecutive
slices `available_uids[i : i + R]` for `i in range(0, len(available_uids), R)`.
All callers in the source pass `R ≥ 1`. -/
def partition_uids (available_uids : List α) (R : Nat) : List (List α) :=
  sliceStrided available_uids R

/-- `adjust_uids_to_multiple(available_uids, R)` (utils.py:586): truncates
the list to `(len(available_uids) // R) * R` elements. -/
def adjust_uids_to_multiple (available_uids : List α) (R : Nat) : List α :=
  available_uids.take (available_uids.length / R * R)

/-- The clamped chunk size of `optimal_chunk_size` (utils.py:508-519):
`max_chunks = num_available_uids // R`; `ideal = data_size / max_chunks`
if `max_chunks > 0` else `max_chunk_size`; result
`max(min_chunk_size, min(ideal, max_chunk_size))` as an exact rational. -/
def chunk_size_clamped
    (data_size num_available_uids R min_chunk_size max_chunk_size : Nat) :
    ExactRat :=
  let max_chunks := num_available_uids / R
  let ideal : ExactRat :=
    if 0 < max_chunks then ⟨data_size, max_chunks⟩ else ⟨max_chunk_size, 1⟩
  ExactRat.emax ⟨min_chunk_size, 1⟩ (ExactRat.emin ideal ⟨max_chunk_size, 1⟩)

/-- `optimal_chunk_size(...)` (utils.py:475): clamp the ideal chunk size into
`[min_chunk_size, max_chunk_size]`, return `data_size` if the clamped value
exceeds it, else `int(chunk_size)` (truncation, here floor of the exact
nonnegative rational). -/
def optimal_chunk_size
    (data_size num_available_uids R min_chunk_size max_chunk_size : Nat) :
    Nat :=
  let chunk_size :=
    chunk_size_clamped data_size num_available_uids R min_chunk_size
      max_chunk_size
  if ExactRat.lt ⟨data_size, 1⟩ chunk_size then data_size
  else chunk_size.num / chunk_size.den

/-- `calculate_chunk_indices(data_size, chunk_size)` (utils.py:661):
`num_chunks = math.ceil(data_size / chunk_size)` (exact ceiling division
here), index pairs `(i * chunk_size, min(i * chunk_size + chunk_size,
data_size))`, and the source's final-chunk adjustment which rewrites the last
pair to end at `data_size` when its end is short.  `chunk_size = 0` raises
`ZeroDivisionError` in Python (`data_size / 0`), modelled as `none`. -/
def calculate_chunk_indices (data_size chunk_size : Nat) :
    Option (List (Nat × Nat)) :=
  if chunk_size = 0 then none
  else
    let num_chunks := (data_size + chunk_size - 1) / chunk_size
    let indices := (List.range num_chunks).map fun i =>
      (i * chunk_size, min (i * chunk_size + chunk_size) data_size)
    some (match indices.getLast? with
      | some (s, e) =>
          if e < data_size then indices.dropLast ++ [(s, data_size)]
          else indices
      | none => indices)

/-- `itertools.combinations(l, n)` as a list of lists, in itertools order
(lexicographic by positions). -/
def combinations : Nat → List α → List (List α)
  | 0, _ => [[]]
  | _ + 1, [] => []
  | n + 1, a :: as =>
      ((combinations n as).map (a :: ·)) ++ combinations (n + 1) as

/-- `generate_efficient_combinations(available_uids, R)` (utils.py:396):
raises the invalid-redundancy `ValueError` when `R` exceeds the number of
available uids, else returns all `R`-combinations. -/
def generate_efficient_combinations (available_uids : List Nat) (R : Nat) :
    Except PyError (List (List Nat)) :=
  if R > available_uids.length then Except.error PyError.invalidRedundancy
  else Except.ok (combinations R available_uids)

/-- One step of the LCG standing in for the Mersenne Twister of the `random`
module: a concrete deterministic 64-bit generator. -/
def lcgNext (s : Nat) : Nat :=
  (6364136223846793005 * s + 1442695040888963407) % (2 ^ 64)

/-- Draw a value below `n` (for `1 ≤ n`) and return it with the advanced
generator state, modelling `random._randbelow`. -/
def randbelow (s n : Nat) : Nat × Nat :=
  let s2 := lcgNext s
  (s2 % n, s2)

/-- `random.seed(n)`: the resulting generator state depends only on `n`,
discarding whatever state the generator had before. -/
def seedState (n : Nat) : Nat := lcgNext (n % (2 ^ 64))

/-- `random.sample(population, k)` as selection sampling: pick one position
of the remaining pool, emit that element, remove it from the pool, repeat
`k` times.  The source always calls it with `k ≤ len(population)`. -/
def sampleAux [Inhabited α] : Nat → Nat → List α → List α × Nat
  | 0, s, _ => ([], s)
  | k + 1, s, pool =>
    if pool.isEmpty then ([], s)
    else
      let js := randbelow s pool.length
      let rest := sampleAux k js.2 (pool.eraseIdx js.1)
      (pool.getD js.1 default :: rest.1, rest.2)

/-- `random.sample(population, k)` from generator state `s`. -/
def py_sample [Inhabited α] (s : Nat) (population : List α) (k : Nat) :
    List α × Nat :=
  sampleAux k s population

/-- Simultaneous swap `x[i], x[j] = x[j], x[i]`; out-of-range indices raise
in Python and never occur in the source's shuffle loop. -/
def listSwap [Inhabited α] (l : List α) (i j : Nat) : List α :=
  if i < l.length ∧ j < l.length then
    (l.set i (l.getD j default)).set j (l.getD i default)
  else l

/-- The loop of `random.shuffle`: `for i in reversed(range(1, len(x))):
j = randbelow(i + 1); swap x[i], x[j]`.  The first argument is the current
value of `i`; the loop stops before `i = 0`. -/
def shuffleAux [Inhabited α] : Nat → Nat → List α → List α × Nat
  | 0, s, arr => (arr, s)
  | i + 1, s, arr =>
    let js := randbelow s (i + 2)
    shuffleAux i js.2 (listSwap arr (i + 1) js.1)

/-- `random.shuffle(arr)` from generator state `s`. -/
def py_shuffle [Inhabited α] (s : Nat) (arr : List α) : List α × Nat :=
  shuffleAux (arr.length - 1) s arr

/-- `get_pseudorandom_uids(subtensor, uids, k)` (utils.py:197): seed the
global generator from the block seed (discarding the previous state
`prng_state`), clamp `k` to `len(uids)`, and sample without replacement.
The block seed is the externally supplied public seed. -/
def get_pseudorandom_uids (prng_state block_seed : Nat) (uids : List Nat)
    (k : Nat) : List Nat :=
  let s := seedState block_seed
  let k2 := min k uids.length
  (py_sample s uids k2).1

/-- `assign_combinations_to_hashes(hashes, combinations)` (utils.py:450):
raise when there are more hashes than combinations, else shuffle the
combinations with the ambient generator state and pair hash `i` with
shuffled combination `i` (a Python dict in insertion order, modelled as an
association list). -/
def assign_combinations_to_hashes (prng_state : Nat) (hashes : List Nat)
    (combos : List (List Nat)) : Except PyError (List (Nat × List Nat)) :=
  if hashes.length > combos.length then
    Except.error PyError.insufficientCombinations
  else
    let shuffled := (py_shuffle prng_state combos).1
    Except.ok (hashes.enum.map fun p => (p.2, shuffled.getD p.1 []))

/-- `assign_combinations_to_hashes_by_block_hash(subtensor, hashes,
combinations)` (utils.py:422): same as above but the generator is seeded
from the public block seed first, discarding the ambient state. -/
def assign_combinations_to_hashes_by_block_hash (prng_state block_seed : Nat)
    (hashes : List Nat) (combos : List (List Nat)) :
    Except PyError (List (Nat × List Nat)) :=
  if hashes.length > combos.length then
    Except.error PyError.insufficientCombinations
  else
    let s := seedState block_seed
    let shuffled := (py_shuffle s combos).1
    Except.ok (hashes.enum.map fun p => (p.2, shuffled.getD p.1 []))

/-- The yield loop of `compute_chunk_distribution` (utils.py:568): chunk `i`
is paired with `uid_combinations[i]`, raising `IndexError` when the shuffled
combination list is exhausted. -/
def assignChunksAux (hash_data : List Nat → Nat) :
    List (List Nat) → List (List Nat) → Nat →
    Except PyError (List (Nat × List Nat × List Nat))
  | [], _, _ => Except.ok []
  | c :: cs, combos, i =>
    if i < combos.length then
      match assignChunksAux hash_data cs combos (i + 1) with
      | Except.error e => Except.error e
      | Except.ok rest =>
          Except.ok ((hash_data c, c, combos.getD i []) :: rest)
    else Except.error PyError.indexError

/-- `compute_chunk_distribution(self, data, R, k, ...)` (utils.py:528),
consumed to a list.  `available_uids` is the externally produced pool
(`get_random_uids`), `hash_data` the external content-hashing primitive and
`block_seed` the public seed; the remaining structure follows the source:
optimal chunk size, cap at `data_size`, all `R`-combinations (may raise),
pre-shuffle, then pair each data chunk with a combination. -/
def compute_chunk_distribution (hash_data : List Nat → Nat)
    (data : List Nat) (available_uids : List Nat) (R block_seed : Nat)
    (min_chunk_size max_chunk_size : Nat) :
    Except PyError (List (Nat × List Nat × List Nat)) :=
  let data_size := data.length
  let cs0 := optimal_chunk_size data_size available_uids.length R
    min_chunk_size max_chunk_size
  let chunk_size := if cs0 > data_size then data_size else cs0
  match generate_efficient_combinations available_uids R with
  | Except.error e => Except.error e
  | Except.ok uid_combinations =>
    let shuffled := (py_shuffle (seedState block_seed) uid_combinations).1
    match chunk_data_generator data chunk_size with
    | none => Except.error PyError.rangeStepZero
    | some data_chunks => assignChunksAux hash_data data_chunks shuffled 0

/-- One record yielded by the mutually exclusive numpy planner. -/
structure ChunkMeta where
  chunk_size : Nat
  start_idx : Nat
  end_idx : Nat
  uids : List Nat
  chunk_index : Nat
deriving DecidableEq

/-- The `while len(uid_groups) < total_chunks_needed` / `cycle` loop of the
exclusive planners (utils.py:649-653, 753-757): append the initial groups
cyclically from index 0 until `total` groups exist.  When `initial` is empty
the Python loop never terminates; that branch is unreachable in the source
because it runs after the redundancy check with `1 ≤ R ≤ len(initial) * R`. -/
def extendGroupsCyclically (initial : List (List Nat)) (total : Nat) :
    List (List Nat) :=
  if initial.length = 0 then initial
  else
    initial ++ (List.range (total - initial.length)).map fun j =>
      initial.getD (j % initial.length) []

/-- The line `chunk_size = chunk_size or optimal_chunk_size(data_size,
len(available_uids), R)` (utils.py:738): Python's `or` treats both `None`
and `0` as absent, falling back to `optimal_chunk_size` with the default
bounds. -/
def effective_chunk_size (data_size num_uids R : Nat)
    (chunk_size_arg : Option Nat) : Nat :=
  match chunk_size_arg with
  | some c =>
      if c ≠ 0 then c
      else optimal_chunk_size data_size num_uids R MIN_CHUNK_SIZE
        MAX_CHUNK_SIZE
  | none => optimal_chunk_size data_size num_uids R MIN_CHUNK_SIZE
      MAX_CHUNK_SIZE

/-- `compute_chunk_distribution_mut_exclusive_numpy_reuse_uids` (utils.py:707),
consumed to a list.  `available_uids` is the externally produced miner pool;
`chunk_size_arg` models the optional `chunk_size` parameter.
The steps follow the source order: effective chunk size, truncation of the
pool, chunk index ranges (raising on a zero chunk size), redundancy check,
exclusive partition, cyclic reuse up to `data_size // chunk_size` groups,
then `zip` of the index ranges with the groups (Python's `zip` truncates to
the shorter sequence). -/
def compute_chunk_distribution_mut_exclusive_numpy_reuse_uids
    (available_uids : List Nat) (data_size R : Nat)
    (chunk_size_arg : Option Nat) : Except PyError (List ChunkMeta) :=
  let cs := effective_chunk_size data_size available_uids.length R
    chunk_size_arg
  let adjusted := adjust_uids_to_multiple available_uids R
  match calculate_chunk_indices data_size cs with
  | none => Except.error PyError.zeroDivisionError
  | some chunk_indices =>
    if R > adjusted.length then Except.error PyError.invalidRedundancy
    else
      let initial := partition_uids adjusted R
      let uid_groups := extendGroupsCyclically initial (data_size / cs)
      Except.ok ((chunk_indices.zip uid_groups).enum.map fun p =>
        { chunk_size := cs, start_idx := p.2.1.1, end_idx := p.2.1.2,
          uids := p.2.2, chunk_index := p.1 })

/-- `pre_process_chunk_distribution_file(self, file_path, R, k)`
(utils.py:811): `data_size` is the file size, obtained externally; the chunk
size always comes from `optimal_chunk_size` with the default bounds.  After
the redundancy check, `num_chunks = data_size // chunk_size + (1 if
data_size % chunk_size != 0 else 0)` (raising on a zero chunk size) and
chunk `i` is assigned `uid_groups[i % len(uid_groups)]`.  Entries are
`(start_pos, chunk_size, uids)`. -/
def pre_process_chunk_distribution_file (available_uids : List Nat)
    (data_size R : Nat) : Except PyError (List (Nat × Nat × List Nat)) :=
  let cs := optimal_chunk_size data_size available_uids.length R
    MIN_CHUNK_SIZE MAX_CHUNK_SIZE
  let adjusted := adjust_uids_to_multiple available_uids R
  if R > adjusted.length then Except.error PyError.invalidRedundancy
  else if cs = 0 then Except.error PyError.zeroDivisionError
  else
    let uid_groups := partition_uids adjusted R
    let num_chunks := data_size / cs + (if data_size % cs ≠ 0 then 1 else 0)
    Except.ok ((List.range num_chunks).map fun i =>
      (i * cs, cs, uid_groups.getD (i % uid_groups.length) []))

instance {ε α : Type _} [DecidableEq ε] [DecidableEq α] :
    DecidableEq (Except ε α)
  | Except.error e1, Except.error e2 =>
      if h : e1 = e2 then isTrue (by rw [h])
      else isFalse fun hh => h (Except.error.inj hh)
  | Except.error _, Except.ok _ => isFalse fun hh => Except.noConfusion hh
  | Except.ok _, Except.error _ => isFalse fun hh => Except.noConfusion hh
  | Except.ok a1, Except.ok a2 =>
      if h : a1 = a2 then isTrue (by rw [h])
      else isFalse fun hh => h (Except.ok.inj hh)

theorem sliceStridedAux_flatten {α : Type _} (k : Nat) (hk : 1 ≤ k) :
    ∀ (fuel : Nat) (l : List α), l.length ≤ fuel →
      (sliceStridedAux fuel l k).flatten = l := by
  intro fuel
  induction fuel with
  | zero =>
      intro l hl
      have hnil : l = [] := List.eq_nil_of_length_eq_zero (Nat.le_zero.mp hl)
      subst hnil
      rfl
  | succ n ih =>
      intro l hl
      cases l with
      | nil => rfl
      | cons a as =>
          have hdrop : ((a :: as).drop k).length ≤ n := by
            rw [List.length_drop]
            simp only [List.length_cons] at hl ⊢
            omega
          calc (sliceStridedAux (n + 1) (a :: as) k).flatten
              = (a :: as).take k ++
                  (sliceStridedAux n ((a :: as).drop k) k).flatten := rfl
            _ = (a :: as).take k ++ (a :: as).drop k := by rw [ih _ hdrop]
            _ = a :: as := List.take_append_drop k (a :: as)

theorem sliceStridedAux_length_le {α : Type _} (k : Nat) (hk : 1 ≤ k) :
    ∀ (fuel : Nat) (l : List α), ∀ g ∈ sliceStridedAux fuel l k,
      1 ≤ g.length ∧ g.length ≤ k := by
  intro fuel
  induction fuel with
  | zero => intro l g hg; simp [sliceStridedAux] at hg
  | succ n ih =>
      intro l g hg
      cases l with
      | nil => simp [sliceStridedAux] at hg
      | cons a as =>
          have hg' : g = (a :: as).take k ∨
              g ∈ sliceStridedAux n ((a :: as).drop k) k := by
            simpa [sliceStridedAux] using hg
          rcases hg' with rfl | hmem
          · constructor
            · simp only [List.length_take, List.length_cons]
              omega
            · simp only [List.length_take]
              omega
          · exact ih _ g hmem

theorem sliceStridedAux_length_eq {α : Type _} (k : Nat) (hk : 1 ≤ k) :
    ∀ (fuel : Nat) (l : List α), l.length ≤ fuel → k ∣ l.length →
      ∀ g ∈ sliceStridedAux fuel l k, g.length = k := by
  intro fuel
  induction fuel with
  | zero => intro l _ _ g hg; simp [sliceStridedAux] at hg
  | succ n ih =>
      intro l hl hdvd g hg
      cases l with
      | nil => simp [sliceStridedAux] at hg
      | cons a as =>
          have hkle : k ≤ (a :: as).length :=
            Nat.le_of_dvd (by simp) hdvd
          have hg' : g = (a :: as).take k ∨
              g ∈ sliceStridedAux n ((a :: as).drop k) k := by
            simpa [sliceStridedAux] using hg
          rcases hg' with rfl | hmem
          · simp only [List.length_take]
            exact Nat.min_eq_left hkle
          · have hdl : ((a :: as).drop k).length ≤ n := by
              rw [List.length_drop]
              simp only [List.length_cons] at hl ⊢
              omega
            have hdd : k ∣ ((a :: as).drop k).length := by
              rw [List.length_drop]
              exact (Nat.dvd_sub' hdvd dvd_rfl)
            exact ih _ hdl hdd g hmem

/-- C10: `partition_uids` by itself preserves every element and their order,
keeping a final group shorter than `R` when the length is not a multiple of
`R`: concatenating its groups in order reproduces the input list exactly,
every group has between 1 and `R` elements, and the truncation to a multiple
of `R` happens only in the separate `adjust_uids_to_multiple` step. -/
theorem partition_uids_concat_identity (available_uids : List Nat) (R : Nat)
    (hR : 1 ≤ R) :
    (partition_uids available_uids R).flatten = available_uids ∧
    (∀ g ∈ partition_uids available_uids R, 1 ≤ g.length ∧ g.length ≤ R) ∧
    adjust_uids_to_multiple available_uids R =
      available_uids.take (available_uids.length / R * R) := by
  refine ⟨?_, ?_, rfl⟩
  · exact sliceStridedAux_flatten R hR _ _ le_rfl
  · exact fun g hg => sliceStridedAux_length_le R hR _ _ g hg

/-- Closed instance of the C10 theorem at a pool of five uids with `R = 2`:
the final group `[9]` is kept short and concatenation restores the pool. -/
theorem partition_uids_concat_identity_witness :
    1 ≤ 2 ∧
    ((partition_uids [3, 1, 4, 5, 9] 2).flatten = [3, 1, 4, 5, 9] ∧
     (∀ g ∈ partition_uids [3, 1, 4, 5, 9] 2, 1 ≤ g.length ∧ g.length ≤ 2) ∧
     adjust_uids_to_multiple [3, 1, 4, 5, 9] 2 =
       List.take (List.length [3, 1, 4, 5, 9] / 2 * 2) [3, 1, 4, 5, 9]) :=
  ⟨by decide, partition_uids_concat_identity [3, 1, 4, 5, 9] 2 (by decide)⟩

/-- C5: partitioning the truncated pool gives groups of exactly `R` pairwise
distinct identifiers, with no identifier shared between two groups. -/
theorem exclusive_partition_group_invariants (available_uids : List Nat)
    (R : Nat) (hR : 1 ≤ R) (hnd : available_uids.Nodup) :
    (∀ g ∈ partition_uids (adjust_uids_to_multiple available_uids R) R,
        g.length = R ∧ g.Nodup) ∧
    List.Pairwise List.Disjoint
      (partition_uids (adjust_uids_to_multiple available_uids R) R) := by
  have hlen : (adjust_uids_to_multiple available_uids R).length =
      available_uids.length / R * R := by
    unfold adjust_uids_to_multiple
    rw [List.length_take]
    exact Nat.min_eq_left (Nat.div_mul_le_self _ _)
  have hdvd : R ∣ (adjust_uids_to_multiple available_uids R).length := by
    rw [hlen]
    exact ⟨available_uids.length / R, Nat.mul_comm _ _⟩
  have hadjnd : (adjust_uids_to_multiple available_uids R).Nodup :=
    (List.take_sublist _ _).nodup hnd
  have hflat : (partition_uids (adjust_uids_to_multiple available_uids R)
      R).flatten = adjust_uids_to_multiple available_uids R :=
    sliceStridedAux_flatten R hR _ _ le_rfl
  have hfnd : (partition_uids (adjust_uids_to_multiple available_uids R)
      R).flatten.Nodup := by rw [hflat]; exact hadjnd
  have hboth := List.nodup_flatten.mp hfnd
  refine ⟨fun g hg => ⟨?_, hboth.1 g hg⟩, hboth.2⟩
  exact sliceStridedAux_length_eq R hR _ _ le_rfl hdvd g hg

/-- Closed instance of the C5 theorem: nine distinct uids with `R = 3` give
three disjoint groups of three distinct uids each. -/
theorem exclusive_partition_group_invariants_witness :
    1 ≤ 3 ∧ ([2, 7, 1, 8, 9, 4, 5, 3, 6] : List Nat).Nodup ∧
    ((∀ g ∈ partition_uids
          (adjust_uids_to_multiple [2, 7, 1, 8, 9, 4, 5, 3, 6] 3) 3,
        g.length = 3 ∧ g.Nodup) ∧
     List.Pairwise List.Disjoint
       (partition_uids
         (adjust_uids_to_multiple [2, 7, 1, 8, 9, 4, 5, 3, 6] 3) 3)) :=
  ⟨by decide, by decide,
    exclusive_partition_group_invariants [2, 7, 1, 8, 9, 4, 5, 3, 6] 3
      (by decide) (by decide)⟩
-- appended to main file after testing
theorem le_ceil_div_mul (ds cs : Nat) (hcs : 1 ≤ cs) :
    ds ≤ (ds + cs - 1) / cs * cs := by
  have h1 := Nat.div_add_mod (ds + cs - 1) cs
  rw [Nat.mul_comm] at h1
  have h2 := Nat.mod_lt (ds + cs - 1) (show 0 < cs from hcs)
  omega

theorem ceil_div_mul_le (ds cs : Nat) :
    (ds + cs - 1) / cs * cs ≤ ds + cs - 1 := Nat.div_mul_le_self _ _

theorem ceil_div_pos (ds cs : Nat) (hds : 1 ≤ ds) (hcs : 1 ≤ cs) :
    1 ≤ (ds + cs - 1) / cs := by
  rw [Nat.le_div_iff_mul_le hcs]
  omega

theorem calculate_chunk_indices_eq (ds cs : Nat) (hcs : 1 ≤ cs) :
    calculate_chunk_indices ds cs =
      some ((List.range ((ds + cs - 1) / cs)).map fun i =>
        (i * cs, min (i * cs + cs) ds)) := by
  unfold calculate_chunk_indices
  rw [if_neg (by omega)]
  simp only []
  rcases Nat.eq_zero_or_pos ((ds + cs - 1) / cs) with h0 | hpos
  · rw [h0]
    rfl
  · have hlen : ((List.range ((ds + cs - 1) / cs)).map fun i =>
        (i * cs, min (i * cs + cs) ds)).length = (ds + cs - 1) / cs := by
      simp
    have hidx : (ds + cs - 1) / cs - 1 <
        ((List.range ((ds + cs - 1) / cs)).map fun i =>
          (i * cs, min (i * cs + cs) ds)).length := by
      rw [hlen]; omega
    have hlast : ((List.range ((ds + cs - 1) / cs)).map fun i =>
        (i * cs, min (i * cs + cs) ds)).getLast? =
        some (((ds + cs - 1) / cs - 1) * cs,
          min (((ds + cs - 1) / cs - 1) * cs + cs) ds) := by
      rw [List.getLast?_eq_getElem?, hlen, List.getElem?_eq_getElem hidx]
      rw [List.getElem_map]
      rw [List.getElem_range]
    rw [hlast]
    have hmul : ((ds + cs - 1) / cs - 1) * cs + cs = (ds + cs - 1) / cs * cs := by
      have h1 : (ds + cs - 1) / cs - 1 + 1 = (ds + cs - 1) / cs := by omega
      calc ((ds + cs - 1) / cs - 1) * cs + cs
          = (((ds + cs - 1) / cs - 1) + 1) * cs := (Nat.succ_mul _ _).symm
        _ = (ds + cs - 1) / cs * cs := by rw [h1]
    have hge : ds ≤ ((ds + cs - 1) / cs - 1) * cs + cs := by
      rw [hmul]; exact le_ceil_div_mul ds cs hcs
    have hminr : min (((ds + cs - 1) / cs - 1) * cs + cs) ds = ds :=
      Nat.min_eq_right hge
    simp only [hminr]
    rw [if_neg (by omega)]
/-- C1: for positive data and chunk sizes, `calculate_chunk_indices` returns
exactly the ceiling of `data_size / chunk_size` ranges, range `i` being
`[i * chunk_size, min((i + 1) * chunk_size, data_size))`; consecutive ranges
are gapless, the first start is `0` and the last end is exactly `data_size`;
and concatenating the chunks of `chunk_data_generator` in order reproduces
the data exactly, with no bytes dropped, duplicated, or padded. -/
theorem chunk_indices_cover_exact (data : List Nat) (chunk_size : Nat)
    (hd : 1 ≤ data.length) (hc : 1 ≤ chunk_size) :
    ∃ idx : List (Nat × Nat),
      calculate_chunk_indices data.length chunk_size = some idx ∧
      idx.length = (data.length + chunk_size - 1) / chunk_size ∧
      (∀ i, i < idx.length →
        idx.getD i (1, 1) =
          (i * chunk_size, min ((i + 1) * chunk_size) data.length)) ∧
      (∀ i, i + 1 < idx.length →
        (idx.getD i (1, 1)).2 = (idx.getD (i + 1) (1, 1)).1) ∧
      (idx.getD 0 (1, 1)).1 = 0 ∧
      (idx.getD (idx.length - 1) (1, 1)).2 = data.length ∧
      ∃ chunks : List (List Nat),
        chunk_data_generator data chunk_size = some chunks ∧
        chunks.flatten = data := by
  set ds := data.length with hds
  set n := (ds + chunk_size - 1) / chunk_size with hn
  have hnpos : 1 ≤ n := ceil_div_pos ds chunk_size hd hc
  set L := (List.range n).map fun i =>
    (i * chunk_size, min (i * chunk_size + chunk_size) ds) with hL
  have hlen : L.length = n := by rw [hL]; simp
  have hget : ∀ i, i < n → L.getD i (1, 1) =
      (i * chunk_size, min (i * chunk_size + chunk_size) ds) := by
    intro i hi
    have hi' : i < L.length := by rw [hlen]; exact hi
    rw [List.getD_eq_getElem _ _ hi']
    simp only [hL, List.getElem_map, List.getElem_range]
  have hnmul : ds ≤ n * chunk_size := by
    rw [hn]; exact le_ceil_div_mul ds chunk_size hc
  have hup : n * chunk_size ≤ ds + chunk_size - 1 := by
    rw [hn]; exact Nat.div_mul_le_self _ _
  refine ⟨L, ?_, hlen, ?_, ?_, ?_, ?_, ?_⟩
  · rw [hL, hn]
    exact calculate_chunk_indices_eq ds chunk_size hc
  · intro i hi
    rw [hget i (by rw [hlen] at hi; exact hi)]
    rw [Nat.succ_mul i chunk_size]
  · intro i hi
    rw [hlen] at hi
    rw [hget i (by omega), hget (i + 1) hi]
    have e1 : (i + 1) * chunk_size ≤ (n - 1) * chunk_size :=
      Nat.mul_le_mul_right _ (by omega)
    have e2 : (n - 1) * chunk_size = n * chunk_size - 1 * chunk_size :=
      Nat.sub_mul n 1 chunk_size
    have e3 : (i + 1) * chunk_size = i * chunk_size + chunk_size :=
      Nat.succ_mul i chunk_size
    show min (i * chunk_size + chunk_size) ds = (i + 1) * chunk_size
    rw [e3]
    exact Nat.min_eq_left (by omega)
  · rw [hget 0 (by omega)]
    simp
  · rw [hlen, hget (n - 1) (by omega)]
    have e4 : (n - 1) * chunk_size + chunk_size = n * chunk_size := by
      have h1 : n - 1 + 1 = n := by omega
      calc (n - 1) * chunk_size + chunk_size
          = (n - 1 + 1) * chunk_size := (Nat.succ_mul _ _).symm
        _ = n * chunk_size := by rw [h1]
    show min ((n - 1) * chunk_size + chunk_size) ds = ds
    rw [e4]
    exact Nat.min_eq_right hnmul
  · refine ⟨sliceStrided data chunk_size, ?_, ?_⟩
    · unfold chunk_data_generator
      rw [if_neg (by omega)]
    · exact sliceStridedAux_flatten chunk_size hc _ _ le_rfl

/-- Closed instance of the C1 theorem: ten bytes in chunks of three give the
ranges `[0,3) [3,6) [6,9) [9,10)` and the chunks concatenate to the data. -/
theorem chunk_indices_cover_exact_witness :
    1 ≤ List.length [1, 2, 3, 4, 5, 6, 7, 8, 9, 10] ∧ 1 ≤ 3 ∧
    ∃ idx : List (Nat × Nat),
      calculate_chunk_indices (List.length [1, 2, 3, 4, 5, 6, 7, 8, 9, 10]) 3 =
        some idx ∧
      idx.length =
        (List.length [1, 2, 3, 4, 5, 6, 7, 8, 9, 10] + 3 - 1) / 3 ∧
      (∀ i, i < idx.length →
        idx.getD i (1, 1) =
          (i * 3, min ((i + 1) * 3)
            (List.length [1, 2, 3, 4, 5, 6, 7, 8, 9, 10]))) ∧
      (∀ i, i + 1 < idx.length →
        (idx.getD i (1, 1)).2 = (idx.getD (i + 1) (1, 1)).1) ∧
      (idx.getD 0 (1, 1)).1 = 0 ∧
      (idx.getD (idx.length - 1) (1, 1)).2 =
        List.length [1, 2, 3, 4, 5, 6, 7, 8, 9, 10] ∧
      ∃ chunks : List (List Nat),
        chunk_data_generator [1, 2, 3, 4, 5, 6, 7, 8, 9, 10] 3 =
          some chunks ∧
        chunks.flatten = [1, 2, 3, 4, 5, 6, 7, 8, 9, 10] :=
  ⟨by decide, by decide,
    chunk_indices_cover_exact [1, 2, 3, 4, 5, 6, 7, 8, 9, 10] 3
      (by decide) (by decide)⟩
theorem chunk_size_clamped_den_pos (ds n R minc maxc : Nat) :
    1 ≤ (chunk_size_clamped ds n R minc maxc).den := by
  unfold chunk_size_clamped ExactRat.emax ExactRat.emin ExactRat.le
  simp only []
  split_ifs <;> simp_all <;> omega

theorem chunk_size_clamped_lower (ds n R minc maxc : Nat) :
    minc * (chunk_size_clamped ds n R minc maxc).den ≤
      (chunk_size_clamped ds n R minc maxc).num := by
  unfold chunk_size_clamped ExactRat.emax ExactRat.emin ExactRat.le
  simp only []
  split_ifs <;> simp_all <;> omega

theorem chunk_size_clamped_upper (ds n R minc maxc : Nat)
    (hmm : minc ≤ maxc) :
    (chunk_size_clamped ds n R minc maxc).num ≤
      maxc * (chunk_size_clamped ds n R minc maxc).den := by
  unfold chunk_size_clamped ExactRat.emax ExactRat.emin ExactRat.le
  simp only []
  split_ifs <;> simp_all <;> omega

/-- C4: `optimal_chunk_size` returns `data_size` whenever the clamped ideal
chunk size exceeds it (in particular whenever `data_size < min_chunk_size`),
and otherwise its result lies within `[min_chunk_size, max_chunk_size]`. -/
theorem optimal_chunk_size_bounds
    (data_size num_available_uids R min_chunk_size max_chunk_size : Nat)
    (hR : 1 ≤ R) (hmin : 1 ≤ min_chunk_size)
    (hmm : min_chunk_size ≤ max_chunk_size) :
    (ExactRat.lt ⟨data_size, 1⟩
        (chunk_size_clamped data_size num_available_uids R min_chunk_size
          max_chunk_size) →
      optimal_chunk_size data_size num_available_uids R min_chunk_size
        max_chunk_size = data_size) ∧
    (data_size < min_chunk_size →
      optimal_chunk_size data_size num_available_uids R min_chunk_size
        max_chunk_size = data_size) ∧
    (min_chunk_size ≤ data_size →
      min_chunk_size ≤ optimal_chunk_size data_size num_available_uids R
        min_chunk_size max_chunk_size ∧
      optimal_chunk_size data_size num_available_uids R min_chunk_size
        max_chunk_size ≤ max_chunk_size) := by
  have hden := chunk_size_clamped_den_pos data_size num_available_uids R
    min_chunk_size max_chunk_size
  have hlow := chunk_size_clamped_lower data_size num_available_uids R
    min_chunk_size max_chunk_size
  have hupp := chunk_size_clamped_upper data_size num_available_uids R
    min_chunk_size max_chunk_size hmm
  set c := chunk_size_clamped data_size num_available_uids R min_chunk_size
    max_chunk_size with hcdef
  refine ⟨?_, ?_, ?_⟩
  · intro h
    unfold optimal_chunk_size
    rw [← hcdef, if_pos h]
  · intro h
    unfold optimal_chunk_size
    rw [← hcdef, if_pos ?_]
    show ExactRat.lt ⟨data_size, 1⟩ c
    unfold ExactRat.lt
    have h1 : data_size * c.den < min_chunk_size * c.den :=
      (Nat.mul_lt_mul_right hden).mpr h
    simp only []
    omega
  · intro hds
    unfold optimal_chunk_size
    rw [← hcdef]
    simp only []
    split_ifs with hlt
    · constructor
      · exact hds
      · unfold ExactRat.lt at hlt
        simp only [] at hlt
        have h2 : data_size * c.den < max_chunk_size * c.den := by omega
        exact Nat.le_of_lt (Nat.lt_of_mul_lt_mul_right h2)
    · constructor
      · exact (Nat.le_div_iff_mul_le hden).mpr hlow
      · have h3 : (max_chunk_size + 1) * c.den =
            max_chunk_size * c.den + c.den := Nat.succ_mul _ _
        have h4 : c.num / c.den < max_chunk_size + 1 :=
          (Nat.div_lt_iff_lt_mul hden).mpr (by omega)
        omega

/-- Closed instance of the C4 theorem at `data_size = 7`, six uids, `R = 2`,
bounds `[2, 10]`: the result `7 / 3` truncated is `2`, inside the bounds. -/
theorem optimal_chunk_size_bounds_witness :
    1 ≤ 2 ∧ 1 ≤ 2 ∧ 2 ≤ 10 ∧
    ((ExactRat.lt ⟨7, 1⟩ (chunk_size_clamped 7 6 2 2 10) →
        optimal_chunk_size 7 6 2 2 10 = 7) ∧
     (7 < 2 → optimal_chunk_size 7 6 2 2 10 = 7) ∧
     (2 ≤ 7 → 2 ≤ optimal_chunk_size 7 6 2 2 10 ∧
        optimal_chunk_size 7 6 2 2 10 ≤ 10)) :=
  ⟨by decide, by decide, by decide,
    optimal_chunk_size_bounds 7 6 2 2 10 (by decide) (by decide) (by decide)⟩
theorem optimal_chunk_size_pos (ds n R minc maxc : Nat) (hmin : 1 ≤ minc)
    (hds : 1 ≤ ds) : 1 ≤ optimal_chunk_size ds n R minc maxc := by
  have hden := chunk_size_clamped_den_pos ds n R minc maxc
  have hlow := chunk_size_clamped_lower ds n R minc maxc
  unfold optimal_chunk_size
  simp only []
  split_ifs with h
  · exact hds
  · rw [Nat.le_div_iff_mul_le hden]
    have h2 : 1 * (chunk_size_clamped ds n R minc maxc).den ≤
        minc * (chunk_size_clamped ds n R minc maxc).den :=
      Nat.mul_le_mul_right _ hmin
    omega

theorem effective_chunk_size_pos (ds n R : Nat) (cso : Option Nat)
    (hcs : 1 ≤ ds ∨ ∃ c, cso = some c ∧ 1 ≤ c) :
    1 ≤ effective_chunk_size ds n R cso := by
  unfold effective_chunk_size
  cases cso with
  | none =>
      rcases hcs with h | ⟨c, hc, _⟩
      · exact optimal_chunk_size_pos ds n R _ _ (by decide) h
      · exact Option.noConfusion hc
  | some c =>
      dsimp only
      by_cases h0 : c = 0
      · subst h0
        rw [if_neg (by omega)]
        rcases hcs with h | ⟨c', hc', hc1⟩
        · exact optimal_chunk_size_pos ds n R _ _ (by decide) h
        · have hce := Option.some.inj hc'
          exact absurd hc1 (by omega)
      · rw [if_pos h0]
        omega

theorem adjust_uids_length_lt_iff (l : List Nat) (R : Nat) (hR : 1 ≤ R) :
    (adjust_uids_to_multiple l R).length < R ↔ l.length < R := by
  unfold adjust_uids_to_multiple
  rw [List.length_take, Nat.min_eq_left (Nat.div_mul_le_self _ _)]
  constructor
  · intro h
    rcases Nat.lt_or_ge l.length R with h' | h'
    · exact h'
    · exfalso
      have h1 : 1 ≤ l.length / R := (Nat.le_div_iff_mul_le hR).mpr (by omega)
      have h2 : 1 * R ≤ l.length / R * R := Nat.mul_le_mul_right _ h1
      omega
  · intro h
    rw [Nat.div_eq_of_lt h]
    omega

theorem numpy_planner_error_cases (available_uids : List Nat)
    (data_size R : Nat) (chunk_size_arg : Option Nat) (hR : 1 ≤ R)
    (hcs1 : 1 ≤ effective_chunk_size data_size available_uids.length R
      chunk_size_arg) :
    (available_uids.length < R →
      compute_chunk_distribution_mut_exclusive_numpy_reuse_uids
        available_uids data_size R chunk_size_arg =
        Except.error PyError.invalidRedundancy) ∧
    (R ≤ available_uids.length →
      ∃ res, compute_chunk_distribution_mut_exclusive_numpy_reuse_uids
        available_uids data_size R chunk_size_arg = Except.ok res) := by
  obtain ⟨L, hL⟩ : ∃ L, calculate_chunk_indices data_size
      (effective_chunk_size data_size available_uids.length R
        chunk_size_arg) = some L :=
    ⟨_, calculate_chunk_indices_eq _ _ hcs1⟩
  unfold compute_chunk_distribution_mut_exclusive_numpy_reuse_uids
  simp only []
  rw [hL]
  simp only []
  split_ifs with h
  · refine ⟨fun _ => rfl, fun hle => ?_⟩
    exfalso
    have := (adjust_uids_length_lt_iff available_uids R hR).mp h
    omega
  · refine ⟨fun hlt => ?_, fun _ => ⟨_, rfl⟩⟩
    exfalso
    exact h ((adjust_uids_length_lt_iff available_uids R hR).mpr hlt)
/-- C6 counterexample: with zero-length data, one available uid and `R = 2`,
the numpy planner fails with the division-by-zero error inherited from the
zero optimal chunk size, not with the invalid-redundancy error, even though
`R` exceeds the number of available uids. -/
theorem numpy_reuse_uids_invalid_redundancy_masked :
    List.length [0] < 2 ∧
    compute_chunk_distribution_mut_exclusive_numpy_reuse_uids [0] 0 2 none =
      Except.error PyError.zeroDivisionError ∧
    compute_chunk_distribution_mut_exclusive_numpy_reuse_uids [0] 0 2 none ≠
      Except.error PyError.invalidRedundancy :=
  ⟨by decide, rfl, by decide⟩

/-- C6 (amended): for `R ≥ 1` and a nonzero effective chunk size (positive
data size, or an explicit nonzero chunk size), the planners fail with the
invalid-redundancy error exactly when `R` exceeds the number of available
uids; the numpy planner then produces no chunk assignment at all, and when
`R` fits it raises nothing. -/
theorem invalid_redundancy_error_iff (available_uids : List Nat)
    (data_size R : Nat) (chunk_size_arg : Option Nat) (hR : 1 ≤ R)
    (hcs : 1 ≤ data_size ∨ ∃ c, chunk_size_arg = some c ∧ 1 ≤ c) :
    (generate_efficient_combinations available_uids R =
        Except.error PyError.invalidRedundancy ↔
      available_uids.length < R) ∧
    (compute_chunk_distribution_mut_exclusive_numpy_reuse_uids
        available_uids data_size R chunk_size_arg =
        Except.error PyError.invalidRedundancy ↔
      available_uids.length < R) ∧
    (∀ e, compute_chunk_distribution_mut_exclusive_numpy_reuse_uids
        available_uids data_size R chunk_size_arg = Except.error e →
      e = PyError.invalidRedundancy) := by
  have hcs1 : 1 ≤ effective_chunk_size data_size available_uids.length R
      chunk_size_arg := effective_chunk_size_pos _ _ _ _ hcs
  have hcases := numpy_planner_error_cases available_uids data_size R
    chunk_size_arg hR hcs1
  refine ⟨?_, ?_, ?_⟩
  · unfold generate_efficient_combinations
    split_ifs with h
    · exact ⟨fun _ => h, fun _ => rfl⟩
    · constructor
      · intro habs
        cases habs
      · intro hlen
        exact absurd hlen h
  · constructor
    · intro herr
      rcases Nat.lt_or_ge available_uids.length R with h | h
      · exact h
      · obtain ⟨res, hres⟩ := hcases.2 h
        rw [hres] at herr
        cases herr
    · exact hcases.1
  · intro e herr
    rcases Nat.lt_or_ge available_uids.length R with h | h
    · have := hcases.1 h
      rw [this] at herr
      exact (Except.error.inj herr).symm
    · obtain ⟨res, hres⟩ := hcases.2 h
      rw [hres] at herr
      cases herr

/-- Closed instance of the C6 theorem: one uid, `R = 2`, five bytes of data:
both the combination generator and the numpy planner fail with the
invalid-redundancy error before producing anything. -/
theorem invalid_redundancy_error_iff_witness :
    1 ≤ 2 ∧ (1 ≤ 5 ∨ ∃ c, (none : Option Nat) = some c ∧ 1 ≤ c) ∧
    ((generate_efficient_combinations [0] 2 =
        Except.error PyError.invalidRedundancy ↔ List.length [0] < 2) ∧
     (compute_chunk_distribution_mut_exclusive_numpy_reuse_uids [0] 5 2
        none = Except.error PyError.invalidRedundancy ↔
      List.length [0] < 2) ∧
     (∀ e, compute_chunk_distribution_mut_exclusive_numpy_reuse_uids [0] 5 2
        none = Except.error e → e = PyError.invalidRedundancy)) :=
  ⟨by decide, Or.inl (by decide),
    invalid_redundancy_error_iff [0] 5 2 none (by decide)
      (Or.inl (by decide))⟩
/-- C2: the numpy planner computes `total_chunks_needed = data_size //
chunk_size` with floor division while `calculate_chunk_indices` produces the
ceiling number of ranges, and `zip` then silently drops the final short
chunk: with two uids, `R = 2`, ten bytes and chunk size three, the four
ranges `[0,3) [3,6) [6,9) [9,10)` exist but only three assignments are
produced, so the chunk `[9,10)` receives no group at all.
`pre_process_chunk_distribution_file`, by contrast, assigns
`uid_groups[i % len(uid_groups)]` to every chunk including the final short
one (300 MiB in two 256 MiB-capped chunks, one group reused cyclically). -/
theorem numpy_reuse_uids_drops_final_short_chunk :
    compute_chunk_distribution_mut_exclusive_numpy_reuse_uids [0, 1] 10 2
      (some 3) =
      Except.ok [⟨3, 0, 3, [0, 1], 0⟩, ⟨3, 3, 6, [0, 1], 1⟩,
        ⟨3, 6, 9, [0, 1], 2⟩] ∧
    calculate_chunk_indices 10 3 =
      some [(0, 3), (3, 6), (6, 9), (9, 10)] ∧
    pre_process_chunk_distribution_file [0, 1] 314572800 2 =
      Except.ok [(0, 268435456, [0, 1]), (268435456, 268435456, [0, 1])] :=
  ⟨rfl, rfl, rfl⟩

/-- C3: for zero-length data the pipeline does not produce an empty plan:
`optimal_chunk_size` returns `data_size = 0`, and consuming
`chunk_data_generator(data, 0)` raises `ValueError` (`range` step `0`), so
`compute_chunk_distribution` fails instead of yielding zero chunks. -/
theorem compute_chunk_distribution_empty_data_raises :
    optimal_chunk_size 0 3 1 MIN_CHUNK_SIZE MAX_CHUNK_SIZE = 0 ∧
    chunk_data_generator ([] : List Nat) 0 = none ∧
    compute_chunk_distribution (fun _ => 0) [] [0, 1, 2] 1 0 MIN_CHUNK_SIZE
      MAX_CHUNK_SIZE = Except.error PyError.rangeStepZero :=
  ⟨rfl, rfl, rfl⟩
theorem getD_mem_of_lt {α : Type _} (l : List α) (j : Nat) (d : α)
    (h : j < l.length) : l.getD j d ∈ l := by
  rw [List.getD_eq_getElem l d h]
  exact List.getElem_mem h

theorem getD_not_mem_eraseIdx {α : Type _} :
    ∀ (l : List α) (j : Nat) (d : α), l.Nodup → j < l.length →
      l.getD j d ∉ l.eraseIdx j := by
  intro l
  induction l with
  | nil => intro j d _ hj; simp at hj
  | cons x xs ih =>
      intro j d hnd hj
      have hx : x ∉ xs := (List.nodup_cons.mp hnd).1
      have hxs : xs.Nodup := (List.nodup_cons.mp hnd).2
      cases j with
      | zero =>
          rw [List.getD_cons_zero, List.eraseIdx_cons_zero]
          exact hx
      | succ j =>
          rw [List.getD_cons_succ, List.eraseIdx_cons_succ]
          intro hmem
          rcases List.mem_cons.mp hmem with heq | hmem'
          · have : xs.getD j d ∈ xs :=
              getD_mem_of_lt xs j d (by simp at hj; omega)
            rw [heq] at this
            exact hx this
          · exact ih j d hxs (by simp at hj; omega) hmem'

theorem sampleAux_length {α : Type _} [Inhabited α] :
    ∀ (k s : Nat) (pool : List α),
      (sampleAux k s pool).1.length = min k pool.length := by
  intro k
  induction k with
  | zero => intro s pool; simp [sampleAux]
  | succ k ih =>
      intro s pool
      by_cases hp : pool.isEmpty
      · rw [sampleAux, if_pos hp]
        have : pool = [] := List.isEmpty_iff.mp hp
        subst this
        simp
      · rw [sampleAux, if_neg hp]
        have hpos : 0 < pool.length := by
          rcases pool with _ | ⟨a, as⟩
          · simp at hp
          · simp
        have hj : (randbelow s pool.length).1 < pool.length := by
          unfold randbelow
          exact Nat.mod_lt _ hpos
        simp only [List.length_cons]
        rw [ih]
        rw [List.length_eraseIdx, if_pos hj]
        omega

theorem sampleAux_mem {α : Type _} [Inhabited α] :
    ∀ (k s : Nat) (pool : List α) (x : α),
      x ∈ (sampleAux k s pool).1 → x ∈ pool := by
  intro k
  induction k with
  | zero => intro s pool x hx; simp [sampleAux] at hx
  | succ k ih =>
      intro s pool x hx
      by_cases hp : pool.isEmpty
      · rw [sampleAux, if_pos hp] at hx
        simp at hx
      · rw [sampleAux, if_neg hp] at hx
        have hpos : 0 < pool.length := by
          rcases pool with _ | ⟨a, as⟩
          · simp at hp
          · simp
        have hj : (randbelow s pool.length).1 < pool.length := by
          unfold randbelow
          exact Nat.mod_lt _ hpos
        rcases List.mem_cons.mp hx with heq | hmem
        · rw [heq]
          exact getD_mem_of_lt _ _ _ hj
        · exact (List.eraseIdx_sublist pool _).mem (ih _ _ x hmem)

theorem sampleAux_nodup {α : Type _} [Inhabited α] :
    ∀ (k s : Nat) (pool : List α), pool.Nodup →
      (sampleAux k s pool).1.Nodup := by
  intro k
  induction k with
  | zero => intro s pool _; simp [sampleAux]
  | succ k ih =>
      intro s pool hnd
      by_cases hp : pool.isEmpty
      · rw [sampleAux, if_pos hp]
        simp
      · rw [sampleAux, if_neg hp]
        have hpos : 0 < pool.length := by
          rcases pool with _ | ⟨a, as⟩
          · simp at hp
          · simp
        have hj : (randbelow s pool.length).1 < pool.length := by
          unfold randbelow
          exact Nat.mod_lt _ hpos
        rw [List.nodup_cons]
        constructor
        · intro hmem
          have hmem' : pool.getD (randbelow s pool.length).1 default ∈
              pool.eraseIdx (randbelow s pool.length).1 :=
            sampleAux_mem k _ _ _ hmem
          exact getD_not_mem_eraseIdx pool _ default hnd hj hmem'
        · exact ih _ _ ((List.eraseIdx_sublist pool _).nodup hnd)
/-- C8 counterexample: with a population containing a duplicated identifier,
`get_pseudorandom_uids` returns that identifier twice, so the output is not
pairwise distinct even though it samples positions without replacement. -/
theorem pseudorandom_uids_duplicate_population :
    (get_pseudorandom_uids 0 0 [5, 5] 2).length =
      min 2 (List.length [5, 5]) ∧
    ¬ (get_pseudorandom_uids 0 0 [5, 5] 2).Nodup :=
  ⟨by decide, by decide⟩

/-- C8 (amended): `get_pseudorandom_uids` returns exactly
`min k (len uids)` elements, each drawn from the input list (in particular
`k > len uids` clamps rather than failing); when the input identifiers are
pairwise distinct, so are the returned ones (positions are sampled without
replacement, so only a duplicated input value can repeat). -/
theorem pseudorandom_uids_sample_spec (prng_state block_seed : Nat)
    (uids : List Nat) (k : Nat) (hnd : uids.Nodup) :
    (get_pseudorandom_uids prng_state block_seed uids k).length =
      min k uids.length ∧
    (∀ x ∈ get_pseudorandom_uids prng_state block_seed uids k, x ∈ uids) ∧
    (get_pseudorandom_uids prng_state block_seed uids k).Nodup := by
  unfold get_pseudorandom_uids py_sample
  simp only []
  refine ⟨?_, ?_, ?_⟩
  · rw [sampleAux_length]
    omega
  · exact fun x hx => sampleAux_mem _ _ _ x hx
  · exact sampleAux_nodup _ _ _ hnd

/-- Closed instance of the C8 theorem: sampling two of three distinct uids
returns two distinct members of the pool. -/
theorem pseudorandom_uids_sample_spec_witness :
    ([1, 2, 3] : List Nat).Nodup ∧
    ((get_pseudorandom_uids 0 0 [1, 2, 3] 2).length =
      min 2 (List.length [1, 2, 3]) ∧
     (∀ x ∈ get_pseudorandom_uids 0 0 [1, 2, 3] 2, x ∈ [1, 2, 3]) ∧
     (get_pseudorandom_uids 0 0 [1, 2, 3] 2).Nodup) :=
  ⟨by decide, pseudorandom_uids_sample_spec 0 0 [1, 2, 3] 2 (by decide)⟩

/-- C7: the seeded operations are deterministic: since `random.seed` derives
the generator state from the public block seed alone, the ambient generator
state is irrelevant, and two independent invocations on the same seed and
the same input sequence return identical outputs. -/
theorem seeded_selection_deterministic (s1 s2 block_seed : Nat)
    (uids : List Nat) (k : Nat) (hashes : List Nat)
    (combos : List (List Nat)) :
    get_pseudorandom_uids s1 block_seed uids k =
      get_pseudorandom_uids s2 block_seed uids k ∧
    assign_combinations_to_hashes_by_block_hash s1 block_seed hashes combos =
      assign_combinations_to_hashes_by_block_hash s2 block_seed hashes
        combos :=
  ⟨rfl, rfl⟩
theorem listSwap_length {α : Type _} [Inhabited α] (l : List α) (i j : Nat) :
    (listSwap l i j).length = l.length := by
  unfold listSwap
  split_ifs
  · simp [List.length_set]
  · rfl

theorem listSwap_mem {α : Type _} [Inhabited α] (l : List α) (i j : Nat)
    (x : α) (hx : x ∈ listSwap l i j) : x ∈ l := by
  unfold listSwap at hx
  split_ifs at hx with h
  · rcases List.mem_or_eq_of_mem_set hx with hx1 | heq
    · rcases List.mem_or_eq_of_mem_set hx1 with hx2 | heq'
      · exact hx2
      · rw [heq']
        exact getD_mem_of_lt _ _ _ h.2
    · rw [heq]
      exact getD_mem_of_lt _ _ _ h.1
  · exact hx

theorem shuffleAux_length {α : Type _} [Inhabited α] :
    ∀ (n s : Nat) (l : List α), ((shuffleAux n s l).1).length = l.length := by
  intro n
  induction n with
  | zero => intro s l; rfl
  | succ n ih =>
      intro s l
      rw [shuffleAux]
      rw [ih]
      exact listSwap_length _ _ _

theorem shuffleAux_mem {α : Type _} [Inhabited α] :
    ∀ (n s : Nat) (l : List α) (x : α), x ∈ (shuffleAux n s l).1 → x ∈ l := by
  intro n
  induction n with
  | zero => intro s l x hx; exact hx
  | succ n ih =>
      intro s l x hx
      rw [shuffleAux] at hx
      exact listSwap_mem _ _ _ _ (ih _ _ x hx)

/-- C9: both assignment operations raise the insufficient-combinations error
exactly when there are more chunk hashes than uid combinations, and when
they do not raise, every hash is assigned some combination drawn from the
input combination list. -/
theorem assign_combinations_error_iff (prng_state block_seed : Nat)
    (hashes : List Nat) (combos : List (List Nat)) :
    (assign_combinations_to_hashes prng_state hashes combos =
        Except.error PyError.insufficientCombinations ↔
      combos.length < hashes.length) ∧
    (assign_combinations_to_hashes_by_block_hash prng_state block_seed
        hashes combos =
        Except.error PyError.insufficientCombinations ↔
      combos.length < hashes.length) ∧
    (∀ m, assign_combinations_to_hashes prng_state hashes combos =
        Except.ok m →
      ∀ h ∈ hashes, ∃ c, c ∈ combos ∧ (h, c) ∈ m) ∧
    (∀ m, assign_combinations_to_hashes_by_block_hash prng_state block_seed
        hashes combos = Except.ok m →
      ∀ h ∈ hashes, ∃ c, c ∈ combos ∧ (h, c) ∈ m) := by
  have hmap : ∀ (s : Nat) (m : List (Nat × List Nat)),
      hashes.length ≤ combos.length →
      m = hashes.enum.map (fun p =>
        (p.2, ((py_shuffle s combos).1).getD p.1 [])) →
      ∀ h ∈ hashes, ∃ c, c ∈ combos ∧ (h, c) ∈ m := by
    intro s m hle hm h hh
    obtain ⟨i, hi, hhi⟩ := List.mem_iff_getElem.mp hh
    have hlen : ((py_shuffle s combos).1).length = combos.length :=
      shuffleAux_length _ _ _
    have hishuf : i < ((py_shuffle s combos).1).length := by omega
    refine ⟨((py_shuffle s combos).1).getD i [], ?_, ?_⟩
    · have : ((py_shuffle s combos).1).getD i [] ∈ (py_shuffle s combos).1 :=
        getD_mem_of_lt _ _ _ hishuf
      exact shuffleAux_mem _ _ _ _ this
    · rw [hm]
      have hienum : i < hashes.enum.length := by
        rw [List.enum_length]
        omega
      refine List.mem_map.mpr ⟨hashes.enum[i], List.getElem_mem hienum, ?_⟩
      rw [List.getElem_enum]
      rw [hhi]
  refine ⟨?_, ?_, ?_, ?_⟩
  · unfold assign_combinations_to_hashes
    split_ifs with h
    · exact ⟨fun _ => (by omega), fun _ => rfl⟩
    · exact ⟨fun habs => (by cases habs), fun hlen => absurd hlen (by omega)⟩
  · unfold assign_combinations_to_hashes_by_block_hash
    split_ifs with h
    · exact ⟨fun _ => (by omega), fun _ => rfl⟩
    · exact ⟨fun habs => (by cases habs), fun hlen => absurd hlen (by omega)⟩
  · intro m hm
    unfold assign_combinations_to_hashes at hm
    split_ifs at hm with h
    cases hm
    exact hmap prng_state _ (by omega) rfl
  · intro m hm
    unfold assign_combinations_to_hashes_by_block_hash at hm
    split_ifs at hm with h
    cases hm
    exact hmap (seedState block_seed) _ (by omega) rfl

/-- Closed instance of the C9 theorem: two hashes and three combinations do
not raise, and each hash receives one of the input combinations. -/
theorem assign_combinations_error_iff_witness :
    (assign_combinations_to_hashes 0 [7, 8] [[1], [2], [3]] =
        Except.error PyError.insufficientCombinations ↔
      List.length [[1], [2], [3]] < List.length [7, 8]) ∧
    (assign_combinations_to_hashes_by_block_hash 0 0 [7, 8]
        [[1], [2], [3]] =
        Except.error PyError.insufficientCombinations ↔
      List.length [[1], [2], [3]] < List.length [7, 8]) ∧
    (∀ m, assign_combinations_to_hashes 0 [7, 8] [[1], [2], [3]] =
        Except.ok m →
      ∀ h ∈ [7, 8], ∃ c, c ∈ [[1], [2], [3]] ∧ (h, c) ∈ m) ∧
    (∀ m, assign_combinations_to_hashes_by_block_hash 0 0 [7, 8]
        [[1], [2], [3]] = Except.ok m →
      ∀ h ∈ [7, 8], ∃ c, c ∈ [[1], [2], [3]] ∧ (h, c) ∈ m) :=
  assign_combinations_error_iff 0 0 [7, 8] [[1], [2], [3]]
